import Mathlib

/-!
Verification of the graph-analysis utilities of the robustness-measures
repository (`tools/utils.py`).  Graphs are embedded as lists of attributed
nodes and attributed edges, mirroring the networkx `Graph` objects the
code manipulates; Python exceptions are embedded as an explicit error
type, and functions that can raise return `Except`.
-/

/-- A graph node: networkx stores the node identifier (the Lightning
`pub_key`) together with an optional `last_update` attribute; nodes that
are auto-created by `add_edge` have no `last_update` attribute, which is
modelled by `none`. -/
structure Node where
  id : String
  last_update : Option Int
deriving DecidableEq

/-- An edge with the attributes `parse_graph_from_json` attaches:
endpoints, capacity, last update, channel identifiers and the two
per-endpoint policy records flattened into eight integer fields. -/
structure Edge where
  node1 : String
  node2 : String
  capacity : Int
  last_update : Int
  channel_id : String
  chan_point : String
  node1_timelock_delta : Int
  node1_min_htlc : Int
  node1_fee_base_msat : Int
  node1_fee_rate_milli_msat : Int
  node2_timelock_delta : Int
  node2_min_htlc : Int
  node2_fee_base_msat : Int
  node2_fee_rate_milli_msat : Int
deriving DecidableEq

/-- An undirected attributed graph, as built by the parser: node list in
insertion order and edge list in insertion order. -/
structure Graph where
  nodes : List Node
  edges : List Edge
deriving DecidableEq

/-- Python exceptions that the analysed functions can raise. -/
inductive Err where
  /-- Python `ZeroDivisionError`, from `sum(values) / len(values)` on an empty list. -/
  | zeroDivision
  /-- The `networkx.NetworkXPointlessConcept` exception, raised by `nx.is_connected` on the null graph. -/
  | pointlessConcept
  /-- Python `IndexError`, from indexing past the end of a list. -/
  | indexOutOfRange
deriving DecidableEq

/-- The list of node identifiers of a graph. -/
def nodeIds (g : Graph) : List String :=
  g.nodes.map Node.id

/-- Embeds `nx.degree(graph, node)`: number of edge endpoints equal to the node
(a self-loop counts twice). -/
def degree (g : Graph) (a : String) : Nat :=
  (g.edges.map (fun e =>
    (if e.node1 = a then 1 else 0) + (if e.node2 = a then 1 else 0))).sum

/-- Embeds `graph.remove_node(a)`: drop the node and every incident edge. -/
def removeNode (g : Graph) (a : String) : Graph :=
  ⟨g.nodes.filter (fun v => decide (v.id ≠ a)),
   g.edges.filter (fun e => decide (e.node1 ≠ a ∧ e.node2 ≠ a))⟩

/-- Two identifiers are adjacent when some edge joins them (in either
orientation). -/
def adjacent (g : Graph) (a b : String) : Bool :=
  g.edges.any (fun e =>
    (e.node1 == a && e.node2 == b) || (e.node1 == b && e.node2 == a))

/-- One step of reachability closure: add every graph node adjacent to the
current set. -/
def stepReach (g : Graph) (s : List String) : List String :=
  s ++ (nodeIds g).filter (fun b => !s.contains b && s.any (fun a => adjacent g a b))

/-- Iterate the reachability step a fixed number of times. -/
def reachIter (g : Graph) : Nat → List String → List String
  | 0, s => s
  | n + 1, s => reachIter g n (stepReach g s)

/-- Identifiers reachable from `a`; iterating once per node of the graph
saturates the closure. -/
def reachableFrom (g : Graph) (a : String) : List String :=
  reachIter g g.nodes.length [a]

/-- Embeds `nx.is_connected` on a non-empty graph: every node is reachable from
the first one.  (On the empty graph networkx raises instead; callers
model that separately.) -/
def isConnected (g : Graph) : Bool :=
  match g.nodes with
  | [] => false
  | v :: _ => g.nodes.all (fun w => (reachableFrom g v.id).contains w.id)

/-- The subgraph induced by a set of nodes: those nodes, plus the edges
with both endpoints among them. -/
def inducedSubgraph (g : Graph) (c : List Node) : Graph :=
  ⟨c, g.edges.filter (fun e =>
    (c.map Node.id).contains e.node1 && (c.map Node.id).contains e.node2)⟩

/-- Connected components of the graph, in first-seen node order; each
component lists its nodes in graph node order. -/
def componentsAux (g : Graph) : List Node → List String → List (List Node)
  | [], _ => []
  | v :: vs, seen =>
    if seen.contains v.id then componentsAux g vs seen
    else
      let comp := reachableFrom g v.id
      (g.nodes.filter (fun w => comp.contains w.id)) :: componentsAux g vs (seen ++ comp)

/-- Embeds `nx.connected_component_subgraphs`: the induced subgraph of each
connected component, in discovery order. -/
def connected_component_subgraphs (g : Graph) : List Graph :=
  (componentsAux g g.nodes []).map (fun c => inducedSubgraph g c)

/-- Python `max(graphs, key=len)`: the first graph with the most nodes
(`none` when the list is empty, where Python would raise). -/
def maxByNodeCount : List Graph → Option Graph
  | [] => none
  | g :: gs => some (gs.foldl (fun best h =>
      if best.nodes.length < h.nodes.length then h else best) g)

/-- The function `clean_isolated_nodes`: remove every degree-0 node (isolates carry no
edges, so the edge list is untouched). -/
def clean_isolated_nodes (g : Graph) : Graph :=
  ⟨g.nodes.filter (fun v => decide (degree g v.id ≠ 0)), g.edges⟩

/-- The function `fix_connectivity`: `nx.is_connected` raises `NetworkXPointlessConcept`
on the null graph; on a connected graph the function falls off the end and
returns Python `None` (modelled as `none`); otherwise it returns the
largest connected-component subgraph, first-encountered winning ties. -/
def fix_connectivity (g : Graph) : Except Err (Option Graph) :=
  if g.nodes.isEmpty then Except.error Err.pointlessConcept
  else if isConnected g then Except.ok none
  else Except.ok (maxByNodeCount (connected_component_subgraphs g))

/-- One pass of `removes_satellites`: scan the node list snapshot taken at
the start of the pass, checking the degree against the *current* (already
mutated) graph, removing each node whose current degree is exactly 1.
Returns the number of nodes removed and the resulting graph. -/
def satPass (g : Graph) : List Node → Nat × Graph
  | [] => (0, g)
  | v :: vs =>
    if degree g v.id = 1 then
      let r := satPass (removeNode g v.id) vs
      (r.1 + 1, r.2)
    else satPass g vs

/-- Size measure used to justify termination of the recursive pruning. -/
def gsize (g : Graph) : Nat :=
  g.nodes.length + g.edges.length

theorem length_filter_le' {α : Type} (p : α → Bool) (l : List α) :
    (l.filter p).length ≤ l.length :=
  List.length_filter_le p l

theorem removeNode_gsize_le (g : Graph) (a : String) :
    gsize (removeNode g a) ≤ gsize g :=
  Nat.add_le_add (length_filter_le' _ _) (length_filter_le' _ _)

theorem degree_pos_exists_edge (g : Graph) (a : String) (h : degree g a ≠ 0) :
    ∃ e ∈ g.edges, e.node1 = a ∨ e.node2 = a := by
  by_contra hc
  push_neg at hc
  apply h
  unfold degree
  rw [List.sum_eq_zero]
  intro x hx
  rw [List.mem_map] at hx
  obtain ⟨e, he, rfl⟩ := hx
  have := hc e he
  rw [if_neg this.1, if_neg this.2]
  rfl

theorem removeNode_gsize_lt (g : Graph) (a : String) (h : degree g a ≠ 0) :
    gsize (removeNode g a) < gsize g := by
  obtain ⟨e, he, hor⟩ := degree_pos_exists_edge g a h
  have hedges : (g.edges.filter (fun e => decide (e.node1 ≠ a ∧ e.node2 ≠ a))).length
      < g.edges.length := by
    apply List.length_filter_lt_length_iff_exists.mpr
    refine ⟨e, he, ?_⟩
    simp only [decide_eq_true_eq]
    rintro ⟨h1, h2⟩
    rcases hor with h | h <;> contradiction
  exact Nat.add_lt_add_of_le_of_lt (length_filter_le' _ _) hedges

theorem satPass_gsize (g : Graph) (l : List Node) :
    gsize (satPass g l).2 ≤ gsize g ∧
      ((satPass g l).1 ≠ 0 → gsize (satPass g l).2 < gsize g) := by
  induction l generalizing g with
  | nil => exact ⟨Nat.le_refl _, fun h => absurd rfl h⟩
  | cons v vs ih =>
    by_cases hd : degree g v.id = 1
    · have hlt : gsize (removeNode g v.id) < gsize g :=
        removeNode_gsize_lt g v.id (by omega)
      have := ih (removeNode g v.id)
      simp only [satPass, if_pos hd]
      exact ⟨Nat.le_of_lt (Nat.lt_of_le_of_lt this.1 hlt),
             fun _ => Nat.lt_of_le_of_lt this.1 hlt⟩
    · simp only [satPass, if_neg hd]
      exact ih g

theorem satPass_zero (g : Graph) (l : List Node)
    (h : (satPass g l).1 = 0) : (satPass g l).2 = g := by
  induction l generalizing g with
  | nil => rfl
  | cons v vs ih =>
    by_cases hd : degree g v.id = 1
    · simp only [satPass, if_pos hd] at h
      exact absurd h (Nat.succ_ne_zero _)
    · simp only [satPass, if_neg hd] at h ⊢
      exact ih g h

/-- The function `removes_satellites`: repeat degree-1 passes until a pass removes
nothing; returns the total number of nodes removed together with the
final graph (the Python function mutates the graph and returns the count). -/
def removes_satellites (g : Graph) : Nat × Graph :=
  if h : (satPass g g.nodes).1 = 0 then (0, (satPass g g.nodes).2)
  else
    ((satPass g g.nodes).1 + (removes_satellites (satPass g g.nodes).2).1,
     (removes_satellites (satPass g g.nodes).2).2)
termination_by gsize g
decreasing_by
  exact (satPass_gsize g g.nodes).2 h

/-!  Betweenness centrality, modelled from the standard shortest-path
definition that `nx.betweenness_centrality` implements (library code,
embedded from its documented semantics): for each node `v`, the sum over
ordered pairs `(s, t)` with `s ≠ t`, both distinct from `v`, of the
fraction of shortest `s`–`t` paths through `v`, rescaled by
`1 / ((n-1) * (n-2))` for `n > 2` (no rescaling for `n ≤ 2`).  Scores are
exact rationals in place of Python floats. -/

/-- Breadth-first layers: each successive list holds the identifiers first
reached at the next distance.  The fuel bounds the number of layers. -/
def bfsLayers (g : Graph) : Nat → List String → List String → List (List String)
  | 0, _, _ => []
  | fuel + 1, frontier, visited =>
    let next := (nodeIds g).filter (fun b =>
      !visited.contains b && !frontier.contains b && frontier.any (fun a => adjacent g a b))
    if next.isEmpty then []
    else next :: bfsLayers g fuel next (visited ++ frontier)

/-- Shortest-path distance between two identifiers, `none` when
unreachable. -/
def dist (g : Graph) (s t : String) : Option Nat :=
  if s = t then some 0
  else ((bfsLayers g g.nodes.length [s] []).findIdx? (fun layer => layer.contains t)).map (· + 1)

/-- Number of shortest paths of length exactly `d` from `s` to `t`. -/
def sigma (g : Graph) (s : String) : Nat → String → Nat
  | 0, t => if s = t then 1 else 0
  | d + 1, t =>
    ((nodeIds g).filter (fun u => adjacent g u t && dist g s u == some d)).foldl
      (fun acc u => acc + sigma g s d u) 0

/-- Number of shortest paths from `s` to `t` (0 when unreachable). -/
def numShortestPaths (g : Graph) (s t : String) : Nat :=
  match dist g s t with
  | none => 0
  | some d => sigma g s d t

/-- Fraction of shortest `s`–`t` paths that pass through `v`. -/
def pairDependency (g : Graph) (s t v : String) : ℚ :=
  match dist g s t, dist g s v, dist g v t with
  | some d, some d1, some d2 =>
    if d1 + d2 = d then
      ((numShortestPaths g s v * numShortestPaths g v t : Nat) : ℚ) / (numShortestPaths g s t : ℚ)
    else 0
  | _, _, _ => 0

/-- Betweenness centrality of one node, with networkx normalization. -/
def betweenness_centrality (g : Graph) (v : String) : ℚ :=
  let ids := nodeIds g
  let n := ids.length
  let raw := (ids.map (fun s =>
    (ids.map (fun t =>
      if s ≠ v ∧ t ≠ v ∧ s ≠ t then pairDependency g s t v else 0)).sum)).sum
  if n ≤ 2 then raw else raw / (((n : ℚ) - 1) * ((n : ℚ) - 2))

/-- The centrality dictionary `nx.betweenness_centrality(graph)` in node
insertion order. -/
def bcDict (g : Graph) : List (String × ℚ) :=
  g.nodes.map (fun v => (v.id, betweenness_centrality g v.id))

/-- The retention threshold of `important_nodes`: three times the
arithmetic mean of all centrality values. -/
def bcThreshold (g : Graph) : ℚ :=
  3 * (((bcDict g).map Prod.snd).sum / (g.nodes.length : ℚ))

/-- The function `important_nodes`: sort the centrality items by score ascending, take
the mean (`ZeroDivisionError` on an empty list), and remove from a copy of
the graph every node whose score is strictly below three times the mean;
returns the surviving subgraph together with the centrality dictionary. -/
def important_nodes (g : Graph) : Except Err (Graph × List (String × ℚ)) :=
  let betweenness_sorted := List.insertionSort (fun a b => a.2 ≤ b.2) (bcDict g)
  let betweenness_values := betweenness_sorted.map Prod.snd
  if betweenness_values.length = 0 then Except.error Err.zeroDivision
  else
    let threshold := 3 * (betweenness_values.sum / (betweenness_values.length : ℚ))
    Except.ok
      (betweenness_sorted.foldl
        (fun sg p => if p.2 < threshold then removeNode sg p.1 else sg) g,
       bcDict g)

/-!  The Temporal Tracker: `build_presence_dictionary` and the destructive
centrality intersection.  Python dictionaries are embedded as association
lists in insertion order; a `defaultdict(list)` is embedded as a total
function defaulting to `[]`. -/

/-- Embeds `sorted(snapshot.items(), key=lambda x: x[1], reverse=True)`: stable
descending sort by score. -/
def sortDescByScore (s : List (String × ℚ)) : List (String × ℚ) :=
  List.insertionSort (fun a b => b.2 ≤ a.2) s

/-- The keys of the top-`K` entries of a snapshot after the descending
sort. -/
def topKeys (s : List (String × ℚ)) (K : Nat) : List String :=
  ((sortDescByScore s).take K).map Prod.fst

/-- Recursive worker for `build_presence_dictionary`: processes the
remaining snapshots, `i` being the index of the first one, extending the
accumulated presence mapping; indexing a snapshot shorter than `K` raises
`IndexError`.  A node appearing several times among the top keys gets the
index appended once per occurrence, exactly as the Python loop does. -/
def bpdAux (K : Nat) : List (List (String × ℚ)) → Nat → (String → List Nat) →
    Except Err (String → List Nat)
  | [], _, acc => Except.ok acc
  | s :: rest, i, acc =>
    if s.length < K then Except.error Err.indexOutOfRange
    else bpdAux K rest (i + 1)
      (fun n => acc n ++ List.replicate ((topKeys s K).count n) i)

/-- The function `build_presence_dictionary`: for each snapshot index `i`, append `i`
to the presence list of every node ranked in the snapshot's top-`K`. -/
def build_presence_dictionary (ls : List (List (String × ℚ))) (K : Nat) :
    Except Err (String → List Nat) :=
  bpdAux K ls 0 (fun _ => [])

/-- The function `betweenness_centrality_intersection`: indexing `bc_list[0]` raises
`IndexError` on an empty batch; otherwise intersect all key sets and
delete from every mapping the keys outside the intersection.  The mutated
batch is returned as the result. -/
def betweenness_centrality_intersection (bcl : List (List (String × ℚ))) :
    Except Err (List (List (String × ℚ))) :=
  match bcl with
  | [] => Except.error Err.indexOutOfRange
  | m0 :: rest =>
    let keysA := (m0 :: rest).foldl
      (fun ka m => ka.filter (fun k => (m.map Prod.fst).contains k)) (m0.map Prod.fst)
    Except.ok ((m0 :: rest).map (fun m => m.filter (fun p => keysA.contains p.1)))

/-- The function `core_component`: the identifiers present in every graph of the list;
the empty Python list returned on empty input is embedded as the empty
set. -/
def core_component (gl : List Graph) : Finset String :=
  match gl with
  | [] => ∅
  | g0 :: rest =>
    (g0 :: rest).foldl (fun r g => (nodeIds g).toFinset ∩ r) (nodeIds g0).toFinset

/-!  The Graph Builder: `parse_graph_from_json`.  The raw snapshot record
is embedded with its numeric fields already integral (the `int(...)`
conversions of the source then act as the identity; a non-numeric value
is a fatal input error outside this model). -/

/-- A per-endpoint routing-policy sub-record. -/
structure Policy where
  time_lock_delta : Int
  min_htlc : Int
  fee_base_msat : Int
  fee_rate_milli_msat : Int
deriving DecidableEq

/-- A raw node record. -/
structure RawNode where
  pub_key : String
  last_update : Int
deriving DecidableEq

/-- A raw edge record; either policy may be null. -/
structure RawEdge where
  node1_pub : String
  node2_pub : String
  capacity : Int
  last_update : Int
  channel_id : String
  chan_point : String
  node1_policy : Option Policy
  node2_policy : Option Policy
deriving DecidableEq

/-- A raw snapshot record. -/
structure RawGraph where
  nodes : List RawNode
  edges : List RawEdge
deriving DecidableEq

/-- Embeds `graph.add_node(pub_key, last_update=...)`: update the attribute if
the node exists, else append a fresh node. -/
def addNode (g : Graph) (a : String) (lu : Int) : Graph :=
  if (nodeIds g).contains a then
    ⟨g.nodes.map (fun v => if v.id = a then ⟨a, some lu⟩ else v), g.edges⟩
  else ⟨g.nodes ++ [⟨a, some lu⟩], g.edges⟩

/-- networkx auto-creates a missing edge endpoint as an attribute-less
node. -/
def ensureNode (g : Graph) (a : String) : Graph :=
  if (nodeIds g).contains a then g else ⟨g.nodes ++ [⟨a, none⟩], g.edges⟩

/-- Whether an edge joins the two given identifiers, in either
orientation. -/
def sameEndpoints (e : Edge) (a b : String) : Bool :=
  (e.node1 == a && e.node2 == b) || (e.node1 == b && e.node2 == a)

/-- Embeds `graph.add_edge(u, v, **attrs)`: auto-create missing endpoints, then
replace the attributes of an existing `u`–`v` edge or append a new one. -/
def addEdge (g : Graph) (e : Edge) : Graph :=
  let g1 := ensureNode (ensureNode g e.node1) e.node2
  if g1.edges.any (fun e0 => sameEndpoints e0 e.node1 e.node2) then
    ⟨g1.nodes, g1.edges.map (fun e0 => if sameEndpoints e0 e.node1 e.node2 then e else e0)⟩
  else ⟨g1.nodes, g1.edges ++ [e]⟩

/-- The edge-attribute bundle built by `parse_graph_from_json` from a raw
edge and its two non-null policies. -/
def policyEdge (e : RawEdge) (p1 p2 : Policy) : Edge :=
  ⟨e.node1_pub, e.node2_pub, e.capacity, e.last_update, e.channel_id, e.chan_point,
   p1.time_lock_delta, p1.min_htlc, p1.fee_base_msat, p1.fee_rate_milli_msat,
   p2.time_lock_delta, p2.min_htlc, p2.fee_base_msat, p2.fee_rate_milli_msat⟩

/-- The function `parse_graph_from_json`: add every listed node, then add an edge for
every raw edge whose two policies are both non-null, skipping the rest. -/
def parse_graph_from_json (j : RawGraph) : Graph :=
  let g0 := j.nodes.foldl (fun g n => addNode g n.pub_key n.last_update) ⟨[], []⟩
  j.edges.foldl (fun g e =>
    match e.node1_policy, e.node2_policy with
    | some p1, some p2 => addEdge g (policyEdge e p1 p2)
    | _, _ => g) g0

/-!  Concrete graphs and records used to evaluate the functions. -/

/-- Identifier constant. -/
def idA : String := "A"

/-- Identifier constant. -/
def idB : String := "B"

/-- Identifier constant. -/
def idC : String := "C"

/-- The empty string, used for opaque channel identifiers in test data. -/
def noStr : String := ""

/-- An edge with neutral attributes between two identifiers. -/
def plainEdge (a b : String) : Edge :=
  ⟨a, b, 0, 0, noStr, noStr, 0, 0, 0, 0, 0, 0, 0, 0⟩

/-- The empty graph. -/
def nullGraph : Graph := ⟨[], []⟩

/-- Two nodes joined by a single edge: a connected graph whose two nodes
both have degree 1. -/
def twoNodeConnected : Graph :=
  ⟨[⟨idA, none⟩, ⟨idB, none⟩], [plainEdge idA idB]⟩

/-- A single isolated node `B`. -/
def oneNodeB : Graph := ⟨[⟨idB, none⟩], []⟩

/-- The path `A — B — C`. -/
def pathABC : Graph :=
  ⟨[⟨idA, none⟩, ⟨idB, none⟩, ⟨idC, none⟩], [plainEdge idA idB, plainEdge idB idC]⟩

/-- C1 evidence, step 1: the two-node graph is connected. -/
theorem twoNodeConnected_isConnected : isConnected twoNodeConnected = true := by decide

/-- C1: on an already-connected input (here the two-node graph, unchanged
by isolate removal) `fix_connectivity` falls off the end of the function
and returns Python `None` instead of the unchanged graph, contradicting
its own docstring (`:return: the largest subgraph`) and poisoning
`load_graph_list`, which stores the result. -/
theorem fix_connectivity_connected_returns_none :
    fix_connectivity (clean_isolated_nodes twoNodeConnected) = Except.ok none ∧
    (Except.ok none : Except Err (Option Graph)) ≠
      Except.ok (some (clean_isolated_nodes twoNodeConnected)) := by
  refine ⟨rfl, ?_⟩
  intro h
  exact Option.noConfusion (Except.ok.inj h)

/-- C4: `fix_connectivity` on the empty graph (which isolate removal
leaves empty) raises `NetworkXPointlessConcept` from `nx.is_connected`
instead of returning the empty graph. -/
theorem fix_connectivity_empty_raises :
    fix_connectivity (clean_isolated_nodes nullGraph) = Except.error Err.pointlessConcept := by
  rfl

/-- C3: `important_nodes` on the empty graph raises a raw
`ZeroDivisionError` from the mean computation `sum(values) / len(values)`;
no distinct catchable empty-graph condition exists in the code. -/
theorem important_nodes_empty_zero_division :
    important_nodes nullGraph = Except.error Err.zeroDivision := by
  rfl

/-- Evaluation of the satellite pruner on the two-node graph: the first
node is removed (degree 1), after which the second node has degree 0 in
the mutated graph and survives; one node is removed in total. -/
theorem removes_satellites_twoNode_eval :
    removes_satellites twoNodeConnected = (1, oneNodeB) := by
  have h1 : satPass twoNodeConnected twoNodeConnected.nodes = (1, oneNodeB) := by decide
  have h2 : satPass oneNodeB oneNodeB.nodes = (0, oneNodeB) := by decide
  rw [removes_satellites.eq_def, h1]
  norm_num
  rw [removes_satellites.eq_def, h2]
  simp

/-- C2 counterexample: on the two-node graph joined by one edge,
`removes_satellites` does not return 2 with the empty graph. -/
theorem removes_satellites_twoNode_counterexample :
    removes_satellites twoNodeConnected ≠ (2, nullGraph) := by
  rw [removes_satellites_twoNode_eval]
  decide

/-- C2 amended: `removes_satellites` evaluates each degree against the
current, mid-pass-mutated graph, so on a two-node graph joined by one
edge only the first node is removed (the second drops to degree 0 before
being examined); the function returns 1 and one isolated node remains. -/
theorem removes_satellites_twoNode_amended :
    removes_satellites twoNodeConnected = (1, oneNodeB) :=
  removes_satellites_twoNode_eval

/-- C10: a raw record whose only listed node is `A` but whose edge (with
both policies non-null) references endpoint `B`: parsing adds `B` as a
node without a `last_update` attribute even though `B` is absent from the
record's node collection. -/
theorem parse_graph_from_json_adds_unknown_endpoint :
    Node.mk idB none ∈ (parse_graph_from_json
      ⟨[⟨idA, 10⟩], [⟨idA, idB, 5, 7, noStr, noStr, some ⟨1, 1, 1, 1⟩, some ⟨1, 1, 1, 1⟩⟩]⟩).nodes ∧
    idB ∉ (RawGraph.nodes
      ⟨[⟨idA, 10⟩], [⟨idA, idB, 5, 7, noStr, noStr, some ⟨1, 1, 1, 1⟩, some ⟨1, 1, 1, 1⟩⟩]⟩).map
        RawNode.pub_key := by
  decide

/-- After `removes_satellites` finishes, a further pass over the final
graph removes nothing: the recursion only stops on a pass that found no
degree-1 node. -/
theorem removes_satellites_fixpoint (g : Graph) :
    (satPass (removes_satellites g).2 (removes_satellites g).2.nodes).1 = 0 := by
  generalize hm : gsize g = m
  induction m using Nat.strong_induction_on generalizing g with
  | _ m ih =>
    rw [removes_satellites.eq_def]
    by_cases h : (satPass g g.nodes).1 = 0
    · rw [dif_pos h]
      rw [satPass_zero g g.nodes h]
      exact h
    · rw [dif_neg h]
      exact ih (gsize (satPass g g.nodes).2)
        (hm ▸ (satPass_gsize g g.nodes).2 h) (satPass g g.nodes).2 rfl

/-- C9: running `removes_satellites` a second time on the graph produced
by a first run removes zero nodes, returns 0, and leaves the graph
unchanged. -/
theorem removes_satellites_idempotent (g : Graph) :
    removes_satellites (removes_satellites g).2 = (0, (removes_satellites g).2) := by
  have h := removes_satellites_fixpoint g
  rw [removes_satellites.eq_def, dif_pos h, satPass_zero _ _ h]

/-- C9 witness: the idempotence theorem applied to the concrete two-node
graph. -/
theorem removes_satellites_idempotent_witness :
    removes_satellites (removes_satellites twoNodeConnected).2 =
      (0, (removes_satellites twoNodeConnected).2) :=
  removes_satellites_idempotent twoNodeConnected

theorem foldl_inter_subset_init (S : Graph → Finset String) :
    ∀ (l : List Graph) (init : Finset String),
      l.foldl (fun r g => S g ∩ r) init ⊆ init := by
  intro l
  induction l with
  | nil => intro init; exact Finset.Subset.refl init
  | cons g gs ih =>
    intro init
    exact (ih (S g ∩ init)).trans Finset.inter_subset_right

theorem foldl_inter_subset_mem (S : Graph → Finset String) :
    ∀ (l : List Graph) (init : Finset String), ∀ g ∈ l,
      l.foldl (fun r g => S g ∩ r) init ⊆ S g := by
  intro l
  induction l with
  | nil => intro init g hg; exact absurd hg (List.not_mem_nil g)
  | cons g0 gs ih =>
    intro init g hg
    rcases List.mem_cons.mp hg with h | h
    · subst h
      exact (foldl_inter_subset_init S gs (S g ∩ init)).trans Finset.inter_subset_left
    · exact ih (S g0 ∩ init) g h

/-- C8: `core_component` returns the identifiers present in every graph
of the sequence: it is contained in each graph's identifier set, equals
that set for a one-graph sequence, and is the empty set (not an error)
for the empty sequence. -/
theorem core_component_spec :
    (∀ (gl : List Graph), ∀ g ∈ gl, core_component gl ⊆ (nodeIds g).toFinset) ∧
    (∀ g : Graph, core_component [g] = (nodeIds g).toFinset) ∧
    core_component ([] : List Graph) = ∅ := by
  refine ⟨?_, ?_, rfl⟩
  · intro gl g hg
    match gl, hg with
    | g0 :: rest, hg =>
      exact foldl_inter_subset_mem (fun g => (nodeIds g).toFinset) (g0 :: rest)
        (nodeIds g0).toFinset g hg
  · intro g
    show (nodeIds g).toFinset ∩ (nodeIds g).toFinset = (nodeIds g).toFinset
    exact Finset.inter_self _

/-- C8 witness: the specification applied to concrete sequences. -/
theorem core_component_spec_witness :
    core_component [twoNodeConnected, oneNodeB] ⊆ (nodeIds twoNodeConnected).toFinset ∧
    core_component [twoNodeConnected] = (nodeIds twoNodeConnected).toFinset ∧
    core_component ([] : List Graph) = ∅ :=
  ⟨core_component_spec.1 [twoNodeConnected, oneNodeB] twoNodeConnected (by simp),
   core_component_spec.2.1 twoNodeConnected, core_component_spec.2.2⟩

theorem mem_foldl_filter_inter (l : List (List (String × ℚ))) :
    ∀ (init : List String) (k : String),
      (k ∈ l.foldl (fun ka m => ka.filter (fun k => (m.map Prod.fst).contains k)) init ↔
        (k ∈ init ∧ ∀ m ∈ l, k ∈ m.map Prod.fst)) := by
  induction l with
  | nil => intro init k; simp
  | cons m ms ih =>
    intro init k
    rw [List.foldl_cons, ih]
    simp only [List.mem_filter, List.mem_cons]
    constructor
    · rintro ⟨⟨hk, hc⟩, hall⟩
      refine ⟨hk, ?_⟩
      rintro m' (rfl | hm')
      · simpa using hc
      · exact hall m' hm'
    · rintro ⟨hk, hall⟩
      exact ⟨⟨hk, by simpa using hall m (Or.inl rfl)⟩, fun m' hm' => hall m' (Or.inr hm')⟩

/-- C7: on a non-empty batch, `betweenness_centrality_intersection`
filters every mapping down to the keys common to all mappings of the
batch: an entry survives in the `j`-th result exactly when it was in the
`j`-th input mapping (same key, same score) and its key occurs in every
mapping of the batch. -/
theorem betweenness_centrality_intersection_spec (bcl : List (List (String × ℚ)))
    (h : bcl ≠ []) :
    ∃ res, betweenness_centrality_intersection bcl = Except.ok res ∧
      res.length = bcl.length ∧
      ∀ (j : Nat) (mj rj : List (String × ℚ)), bcl[j]? = some mj → res[j]? = some rj →
        ∀ (k : String) (v : ℚ), ((k, v) ∈ rj ↔ ((k, v) ∈ mj ∧ ∀ m ∈ bcl, k ∈ m.map Prod.fst)) := by
  match bcl, h with
  | m0 :: rest, _ =>
    refine ⟨_, rfl, List.length_map _ _, ?_⟩
    intro j mj rj hmj hrj k v
    rw [List.getElem?_map, hmj, Option.map_some'] at hrj
    rw [← Option.some_inj.mp hrj, List.mem_filter]
    have hk := mem_foldl_filter_inter (m0 :: rest) (m0.map Prod.fst) k
    constructor
    · rintro ⟨hmem, hc⟩
      refine ⟨hmem, ?_⟩
      have := (hk.mp (by simpa using hc))
      exact this.2
    · rintro ⟨hmem, hall⟩
      refine ⟨hmem, ?_⟩
      have hin := hk.mpr ⟨hall m0 (List.mem_cons_self m0 rest), hall⟩
      simpa using hin

/-- C7 witness: the intersection specification applied to a concrete
two-mapping batch. -/
theorem betweenness_centrality_intersection_spec_witness :
    ∃ res, betweenness_centrality_intersection [[(idA, (1 : ℚ)), (idB, 2)], [(idB, 3)]] =
        Except.ok res ∧
      res.length = [[(idA, (1 : ℚ)), (idB, 2)], [(idB, 3)]].length ∧
      ∀ (j : Nat) (mj rj : List (String × ℚ)),
        [[(idA, (1 : ℚ)), (idB, 2)], [(idB, 3)]][j]? = some mj → res[j]? = some rj →
        ∀ (k : String) (v : ℚ), ((k, v) ∈ rj ↔ ((k, v) ∈ mj ∧
          ∀ m ∈ [[(idA, (1 : ℚ)), (idB, 2)], [(idB, 3)]], k ∈ m.map Prod.fst)) :=
  betweenness_centrality_intersection_spec _ (List.cons_ne_nil _ _)

/-- Reference shape of a presence list: the snapshot indices (offset by
`i`) whose top-`K` keys contain the node. -/
def presenceFrom (K : Nat) : List (List (String × ℚ)) → Nat → String → List Nat
  | [], _, _ => []
  | s :: rest, i, n =>
    (if n ∈ topKeys s K then [i] else []) ++ presenceFrom K rest (i + 1) n

theorem topKeys_nodup (s : List (String × ℚ)) (hnd : (s.map Prod.fst).Nodup) (K : Nat) :
    (topKeys s K).Nodup := by
  have hperm : List.Perm ((sortDescByScore s).map Prod.fst) (s.map Prod.fst) :=
    (List.perm_insertionSort _ s).map Prod.fst
  have hnd2 : ((sortDescByScore s).map Prod.fst).Nodup := hperm.nodup_iff.mpr hnd
  have hsub : List.Sublist (topKeys s K) ((sortDescByScore s).map Prod.fst) := by
    rw [topKeys, List.map_take]
    exact List.take_sublist K _
  exact hnd2.sublist hsub

theorem replicate_count_topKeys (s : List (String × ℚ))
    (hnd : (s.map Prod.fst).Nodup) (K : Nat) (n : String) (i : Nat) :
    List.replicate ((topKeys s K).count n) i = if n ∈ topKeys s K then [i] else [] := by
  by_cases hm : n ∈ topKeys s K
  · rw [if_pos hm, List.count_eq_one_of_mem (topKeys_nodup s hnd K) hm]
    rfl
  · rw [if_neg hm, List.count_eq_zero_of_not_mem hm]
    rfl

theorem bpdAux_ok (K : Nat) :
    ∀ (ls : List (List (String × ℚ))), (∀ s ∈ ls, K ≤ s.length) →
      (∀ s ∈ ls, (s.map Prod.fst).Nodup) →
      ∀ (i : Nat) (acc : String → List Nat),
        bpdAux K ls i acc = Except.ok (fun n => acc n ++ presenceFrom K ls i n) := by
  intro ls
  induction ls with
  | nil =>
    intro _ _ i acc
    simp only [bpdAux, presenceFrom, List.append_nil]
  | cons s rest ih =>
    intro hlen hnd i acc
    have hK : ¬s.length < K :=
      Nat.not_lt.mpr (hlen s (List.mem_cons_self s rest))
    rw [bpdAux, if_neg hK]
    rw [ih (fun m hm => hlen m (List.mem_cons_of_mem s hm))
        (fun m hm => hnd m (List.mem_cons_of_mem s hm))]
    congr 1
    funext n
    rw [replicate_count_topKeys s (hnd s (List.mem_cons_self s rest)) K n i]
    simp only [presenceFrom, List.append_assoc]

theorem bpdAux_err (K : Nat) :
    ∀ (ls : List (List (String × ℚ))) (i : Nat) (acc : String → List Nat),
      (∃ s ∈ ls, s.length < K) → bpdAux K ls i acc = Except.error Err.indexOutOfRange := by
  intro ls
  induction ls with
  | nil =>
    intro i acc h
    exact absurd h (by simp)
  | cons s rest ih =>
    intro i acc h
    by_cases hK : s.length < K
    · rw [bpdAux, if_pos hK]
    · rw [bpdAux, if_neg hK]
      apply ih
      rcases h with ⟨s', hs', hlen⟩
      rcases List.mem_cons.mp hs' with rfl | hmem
      · exact absurd hlen hK
      · exact ⟨s', hmem, hlen⟩

theorem presenceFrom_length (K : Nat) :
    ∀ (ls : List (List (String × ℚ))) (i : Nat) (n : String),
      (presenceFrom K ls i n).length ≤ ls.length := by
  intro ls
  induction ls with
  | nil => intro i n; exact Nat.le_refl 0
  | cons s rest ih =>
    intro i n
    rw [presenceFrom, List.length_append, List.length_cons]
    have h1 : (if n ∈ topKeys s K then [i] else []).length ≤ 1 := by
      by_cases hm : n ∈ topKeys s K <;> simp [hm]
    have h2 := ih (i + 1) n
    omega

theorem presenceFrom_mem (K : Nat) :
    ∀ (ls : List (List (String × ℚ))) (i : Nat) (n : String) (j : Nat),
      (j ∈ presenceFrom K ls i n ↔
        ∃ d s, ls[d]? = some s ∧ j = i + d ∧ n ∈ topKeys s K) := by
  intro ls
  induction ls with
  | nil =>
    intro i n j
    simp [presenceFrom]
  | cons s rest ih =>
    intro i n j
    rw [presenceFrom, List.mem_append, ih (i + 1) n j]
    constructor
    · rintro (hj | ⟨d, s', hd, rfl, hmem⟩)
      · by_cases hm : n ∈ topKeys s K
        · rw [if_pos hm] at hj
          exact ⟨0, s, by simp, by simpa using hj, hm⟩
        · rw [if_neg hm] at hj
          exact absurd hj (List.not_mem_nil j)
      · exact ⟨d + 1, s', by simpa using hd, by omega, hmem⟩
    · rintro ⟨d, s', hd, rfl, hmem⟩
      match d with
      | 0 =>
        left
        have : s = s' := by simpa using hd
        subst this
        simp [hmem]
      | d + 1 =>
        right
        exact ⟨d, s', by simpa using hd, by omega, hmem⟩

/-- C6: with distinct keys per snapshot, if every snapshot has at least
`K` entries then `build_presence_dictionary` succeeds and each node's
presence list has length at most the number of snapshots and holds
exactly the indices of the snapshots whose stable-descending top-`K`
keys contain the node; if some snapshot has fewer than `K` entries, the
call fails with an `IndexError`. -/
theorem build_presence_dictionary_spec (ls : List (List (String × ℚ))) (K : Nat)
    (hnd : ∀ s ∈ ls, (s.map Prod.fst).Nodup) :
    ((∀ s ∈ ls, K ≤ s.length) →
      ∃ pd, build_presence_dictionary ls K = Except.ok pd ∧
        ∀ n : String, (pd n).length ≤ ls.length ∧
          ∀ j : Nat, (j ∈ pd n ↔ ∃ s, ls[j]? = some s ∧ n ∈ topKeys s K)) ∧
    ((∃ s ∈ ls, s.length < K) →
      build_presence_dictionary ls K = Except.error Err.indexOutOfRange) := by
  constructor
  · intro hlen
    refine ⟨fun n => presenceFrom K ls 0 n, ?_, ?_⟩
    · rw [build_presence_dictionary, bpdAux_ok K ls hlen hnd 0 (fun _ => [])]
      congr 1
    · intro n
      refine ⟨presenceFrom_length K ls 0 n, ?_⟩
      intro j
      rw [presenceFrom_mem K ls 0 n j]
      constructor
      · rintro ⟨d, s, hd, rfl, hmem⟩
        exact ⟨s, by simpa using hd, hmem⟩
      · rintro ⟨s, hj, hmem⟩
        exact ⟨j, s, hj, by omega, hmem⟩
  · intro h
    exact bpdAux_err K ls 0 (fun _ => []) h

/-- A one-snapshot batch of centrality scores used as concrete input. -/
def demoLs : List (List (String × ℚ)) := [[(idA, 2), (idB, 1)]]

/-- C6 witness: the presence-dictionary specification applied to a
concrete batch with `K = 1`, whose top-1 precondition holds. -/
theorem build_presence_dictionary_spec_witness :
    ∃ pd, build_presence_dictionary demoLs 1 = Except.ok pd ∧
      ∀ n : String, (pd n).length ≤ demoLs.length ∧
        ∀ j : Nat, (j ∈ pd n ↔ ∃ s, demoLs[j]? = some s ∧ n ∈ topKeys s 1) :=
  (build_presence_dictionary_spec demoLs 1
    (by simp [demoLs, idA, idB])).1 (by simp [demoLs])

theorem mem_foldl_removeNode_nodes (t : ℚ) :
    ∀ (L : List (String × ℚ)) (h : Graph) (v : Node),
      (v ∈ (L.foldl (fun sg p => if p.2 < t then removeNode sg p.1 else sg) h).nodes ↔
        (v ∈ h.nodes ∧ ∀ p ∈ L, p.2 < t → p.1 ≠ v.id)) := by
  intro L
  induction L with
  | nil =>
    intro h v
    simp
  | cons p L ih =>
    intro h v
    rw [List.foldl_cons, ih]
    by_cases hp : p.2 < t
    · rw [if_pos hp]
      simp only [removeNode, List.mem_filter, decide_eq_true_eq, List.forall_mem_cons]
      constructor
      · rintro ⟨⟨hv, hne⟩, hrest⟩
        exact ⟨hv, fun _ => Ne.symm hne, hrest⟩
      · rintro ⟨hv, himp, hrest⟩
        exact ⟨⟨hv, Ne.symm (himp hp)⟩, hrest⟩
    · rw [if_neg hp]
      simp only [List.forall_mem_cons]
      constructor
      · rintro ⟨hv, hrest⟩
        exact ⟨hv, fun hlt => absurd hlt hp, hrest⟩
      · rintro ⟨hv, _, hrest⟩
        exact ⟨hv, hrest⟩

theorem mem_foldl_removeNode_edges (t : ℚ) :
    ∀ (L : List (String × ℚ)) (h : Graph) (e : Edge),
      (e ∈ (L.foldl (fun sg p => if p.2 < t then removeNode sg p.1 else sg) h).edges ↔
        (e ∈ h.edges ∧ ∀ p ∈ L, p.2 < t → p.1 ≠ e.node1 ∧ p.1 ≠ e.node2)) := by
  intro L
  induction L with
  | nil =>
    intro h e
    simp
  | cons p L ih =>
    intro h e
    rw [List.foldl_cons, ih]
    by_cases hp : p.2 < t
    · rw [if_pos hp]
      simp only [removeNode, List.mem_filter, decide_eq_true_eq, List.forall_mem_cons]
      constructor
      · rintro ⟨⟨he, hne1, hne2⟩, hrest⟩
        exact ⟨he, fun _ => ⟨Ne.symm hne1, Ne.symm hne2⟩, hrest⟩
      · rintro ⟨he, himp, hrest⟩
        exact ⟨⟨he, Ne.symm (himp hp).1, Ne.symm (himp hp).2⟩, hrest⟩
    · rw [if_neg hp]
      simp only [List.forall_mem_cons]
      constructor
      · rintro ⟨he, hrest⟩
        exact ⟨he, fun hlt => absurd hlt hp, hrest⟩
      · rintro ⟨he, _, hrest⟩
        exact ⟨he, hrest⟩

theorem keep_iff_threshold (g : Graph) (t : ℚ) (x : String) (hx : x ∈ nodeIds g) :
    ((∀ p ∈ List.insertionSort (fun (a b : String × ℚ) => a.2 ≤ b.2) (bcDict g),
        p.2 < t → p.1 ≠ x) ↔
      t ≤ betweenness_centrality g x) := by
  have hmemL : ∀ q : String × ℚ,
      (q ∈ List.insertionSort (fun (a b : String × ℚ) => a.2 ≤ b.2) (bcDict g) ↔
        q ∈ bcDict g) :=
    fun q => (List.perm_insertionSort _ _).mem_iff
  constructor
  · intro hall
    by_contra hlt
    rw [not_le] at hlt
    rcases List.mem_map.mp hx with ⟨v, hv, rfl⟩
    have hq : (v.id, betweenness_centrality g v.id) ∈ bcDict g :=
      List.mem_map.mpr ⟨v, hv, rfl⟩
    exact hall _ ((hmemL _).mpr hq) hlt rfl
  · intro hle p hp hplt heq
    have hpd : p ∈ bcDict g := (hmemL p).mp hp
    rcases List.mem_map.mp hpd with ⟨w, _, hq⟩
    rw [← hq] at hplt heq
    simp only at hplt heq
    rw [heq] at hplt
    exact absurd hle (not_le.mpr hplt)

/-- C5: on a non-empty connected graph whose edges join listed nodes,
`important_nodes` succeeds, returning the centrality dictionary and the
induced subgraph that keeps exactly the nodes whose betweenness
centrality is at least three times the mean centrality; nodes strictly
below the threshold (and the edges touching them) are removed. -/
theorem important_nodes_threshold (g : Graph)
    (hne : g.nodes ≠ []) (hc : isConnected g = true)
    (hwf : ∀ e ∈ g.edges, e.node1 ∈ nodeIds g ∧ e.node2 ∈ nodeIds g) :
    ∃ sub, important_nodes g = Except.ok (sub, bcDict g) ∧
      (∀ v : Node, v ∈ sub.nodes ↔
        (v ∈ g.nodes ∧ bcThreshold g ≤ betweenness_centrality g v.id)) ∧
      (∀ e : Edge, e ∈ sub.edges ↔
        (e ∈ g.edges ∧ bcThreshold g ≤ betweenness_centrality g e.node1 ∧
          bcThreshold g ≤ betweenness_centrality g e.node2)) := by
  have hperm : List.Perm
      ((List.insertionSort (fun (a b : String × ℚ) => a.2 ≤ b.2) (bcDict g)).map Prod.snd)
      ((bcDict g).map Prod.snd) :=
    (List.perm_insertionSort _ _).map Prod.snd
  have hlen : ((List.insertionSort (fun (a b : String × ℚ) => a.2 ≤ b.2)
      (bcDict g)).map Prod.snd).length = g.nodes.length := by
    rw [hperm.length_eq, List.length_map, bcDict, List.length_map]
  have hlen0 : ¬((List.insertionSort (fun (a b : String × ℚ) => a.2 ≤ b.2)
      (bcDict g)).map Prod.snd).length = 0 := by
    rw [hlen]
    exact fun h0 => hne (List.length_eq_zero.mp h0)
  have ht : 3 * (((List.insertionSort (fun (a b : String × ℚ) => a.2 ≤ b.2)
        (bcDict g)).map Prod.snd).sum /
      (((List.insertionSort (fun (a b : String × ℚ) => a.2 ≤ b.2)
        (bcDict g)).map Prod.snd).length : ℚ)) = bcThreshold g := by
    rw [hperm.sum_eq, hlen, bcThreshold]
  have hok : important_nodes g = Except.ok
      ((List.insertionSort (fun (a b : String × ℚ) => a.2 ≤ b.2) (bcDict g)).foldl
        (fun sg p => if p.2 < 3 * (((List.insertionSort (fun (a b : String × ℚ) => a.2 ≤ b.2)
            (bcDict g)).map Prod.snd).sum /
          (((List.insertionSort (fun (a b : String × ℚ) => a.2 ≤ b.2)
            (bcDict g)).map Prod.snd).length : ℚ)) then removeNode sg p.1 else sg) g,
       bcDict g) := by
    simp only [important_nodes]
    rw [if_neg hlen0]
  rw [ht] at hok
  refine ⟨_, hok, ?_, ?_⟩
  · intro v
    rw [mem_foldl_removeNode_nodes]
    constructor
    · rintro ⟨hv, hall⟩
      exact ⟨hv, (keep_iff_threshold g (bcThreshold g) v.id
        (List.mem_map_of_mem Node.id hv)).mp hall⟩
    · rintro ⟨hv, hth⟩
      exact ⟨hv, (keep_iff_threshold g (bcThreshold g) v.id
        (List.mem_map_of_mem Node.id hv)).mpr hth⟩
  · intro e
    rw [mem_foldl_removeNode_edges]
    constructor
    · rintro ⟨he, hall⟩
      exact ⟨he,
        (keep_iff_threshold g (bcThreshold g) e.node1 (hwf e he).1).mp
          (fun p hp hl => (hall p hp hl).1),
        (keep_iff_threshold g (bcThreshold g) e.node2 (hwf e he).2).mp
          (fun p hp hl => (hall p hp hl).2)⟩
    · rintro ⟨he, hth1, hth2⟩
      exact ⟨he, fun p hp hl =>
        ⟨(keep_iff_threshold g (bcThreshold g) e.node1 (hwf e he).1).mpr hth1 p hp hl,
         (keep_iff_threshold g (bcThreshold g) e.node2 (hwf e he).2).mpr hth2 p hp hl⟩⟩

/-- C5 witness: the path `A — B — C` is non-empty, connected and
well-formed, and the threshold specification applies to it. -/
theorem important_nodes_threshold_witness :
    isConnected pathABC = true ∧
    (∃ sub, important_nodes pathABC = Except.ok (sub, bcDict pathABC) ∧
      (∀ v : Node, v ∈ sub.nodes ↔
        (v ∈ pathABC.nodes ∧ bcThreshold pathABC ≤ betweenness_centrality pathABC v.id)) ∧
      (∀ e : Edge, e ∈ sub.edges ↔
        (e ∈ pathABC.edges ∧ bcThreshold pathABC ≤ betweenness_centrality pathABC e.node1 ∧
          bcThreshold pathABC ≤ betweenness_centrality pathABC e.node2))) :=
  ⟨by decide, important_nodes_threshold pathABC (by decide) (by decide) (by decide)⟩
